import Mathlib

/-!
Verification of the sales-computation pipeline in computeSales.py.

The source consumes already-parsed JSON data (catalogue entries and sale
records), builds a price map, aggregates per-sale and grand totals, and
formats a text report.  We shallowly embed the three core functions
(build_price_map, compute_sales, format_output) over a JSON-like value
type.  Numbers are modelled as exact rationals (the spec's
floating-point-with-no-rounding idealisation).  Python's print-based
diagnostics are modelled as a returned list of structured, levelled
diagnostics carrying the same data as the source's f-strings.  Python
exceptions (TypeError on unhashable dict keys, AttributeError on .get of
a non-dict) are modelled with Except.
-/

namespace ComputeSales

/-- JSON-like values as produced by json.load.  Python's None and JSON's
null are the same object, so a single null constructor models both a
missing field's default and an explicit null.  Numbers are idealised as
exact rationals; Python bools are a separate constructor because the
source's isinstance checks treat them as numeric (bool is a subclass of
int in Python). -/
inductive JValue where
  | null : JValue
  | bool : Bool → JValue
  | num : Rat → JValue
  | str : String → JValue
  | arr : List JValue → JValue
  | obj : List (String × JValue) → JValue
deriving Repr

/-- Python exceptions that the embedded code can raise. -/
inductive PyErr where
  | typeError : PyErr
  | attributeError : PyErr
deriving DecidableEq, Repr

/-- Numeric view of a value, mirroring isinstance(x, (int, float)) in
Python: bools count as numbers (False is 0, True is 1); everything else
is non-numeric.  Returns the numeric value when the isinstance check
would succeed. -/
def JValue.toNum? : JValue → Option Rat
  | .num q => some q
  | .bool b => some (if b then 1 else 0)
  | _ => none

/-- Test for Python None / JSON null, mirroring the source's is None
checks. -/
def JValue.isNull : JValue → Bool
  | .null => true
  | _ => false

/-- Test for a JSON object (Python dict). -/
def JValue.isObj : JValue → Bool
  | .obj _ => true
  | _ => false

/-- Hashability of a value as a Python dict key: scalars are hashable,
lists and dicts are not (using one as a dict key raises TypeError). -/
def hashable : JValue → Bool
  | .arr _ => false
  | .obj _ => false
  | _ => true

/-- Python equality as used for dict keys, restricted to the JSON value
space: numbers and bools compare numerically across types (1 == True ==
1.0 in Python), strings compare by content, None equals None, and
values of different kinds are unequal. -/
def pyEq (a b : JValue) : Bool :=
  match a.toNum?, b.toNum? with
  | some x, some y => decide (x = y)
  | _, _ =>
    match a, b with
    | .str s, .str t => decide (s = t)
    | .null, .null => true
    | _, _ => false

/-- Embedding of Python's dict.get(key, default) (and .get(key), whose
default is None): returns the stored value, or the default when the key
is absent; raises AttributeError when the receiver is not a dict, as
.get does on every other JSON value. -/
def pyGet (v : JValue) (key : String) (default : JValue) : Except PyErr JValue :=
  match v with
  | .obj kvs => .ok ((kvs.lookup key).getD default)
  | _ => .error .attributeError

/-- Total variant of dict.get(key, default) used only in well-formedness
predicates, where the receiver is known to be a dict. -/
def objGetD (v : JValue) (key : String) (default : JValue) : JValue :=
  match v with
  | .obj kvs => (kvs.lookup key).getD default
  | _ => default

/-- Embedding of Python iteration over a JSON value: lists yield their
elements, strings yield their characters as one-character strings, dicts
yield their keys, and the remaining scalars raise TypeError (not
iterable). -/
def pyIter : JValue → Except PyErr (List JValue)
  | .arr xs => .ok xs
  | .str s => .ok (s.toList.map fun c => .str (String.singleton c))
  | .obj kvs => .ok (kvs.map fun kv => .str kv.1)
  | _ => .error .typeError

/-- Severity of a diagnostic: the source prints WARNING: or ERROR:
prefixed messages. -/
inductive DiagLevel where
  | warning : DiagLevel
  | error : DiagLevel
deriving DecidableEq, Repr

/-- Structured diagnostics, one per print statement of the source, each
carrying exactly the data interpolated into the corresponding f-string. -/
inductive Diag where
  | warnInvalidEntry (entry : JValue)
  | warnInvalidPrice (title : JValue) (price : JValue)
  | errUnknownProduct (product : JValue) (saleId : JValue)
  | warnInvalidQuantity (product : JValue) (saleId : JValue) (quantity : JValue)
deriving Repr

/-- Severity of each diagnostic, matching the WARNING/ERROR prefix of the
source's print statements. -/
def Diag.level : Diag → DiagLevel
  | .warnInvalidEntry _ => .warning
  | .warnInvalidPrice _ _ => .warning
  | .errUnknownProduct _ _ => .error
  | .warnInvalidQuantity _ _ _ => .warning

/-- Price map: a Python dict from product title to validated price,
modelled as an association list with pyEq-distinct keys in insertion
order. -/
abbrev PriceMap := List (JValue × Rat)

/-- Lookup in the price map with Python dict key equality; first match
(keys are pyEq-distinct by construction, so at most one matches). -/
def pmFind (pm : PriceMap) (k : JValue) : Option Rat :=
  match pm with
  | [] => none
  | kv :: rest => if pyEq kv.1 k then some kv.2 else pmFind rest k

/-- Dict membership / subscript access: hashes the key first, so an
unhashable key raises TypeError as in Python. -/
def pmLookup (pm : PriceMap) (k : JValue) : Except PyErr (Option Rat) :=
  if hashable k then .ok (pmFind pm k) else .error .typeError

/-- Pure dict insertion: overwrites the value of an existing
pyEq-matching key in place, otherwise appends a new binding. -/
def insertKey (pm : PriceMap) (k : JValue) (v : Rat) : PriceMap :=
  if (pmFind pm k).isSome then
    pm.map fun kv => if pyEq kv.1 k then (kv.1, v) else kv
  else
    pm ++ [(k, v)]

/-- Dict assignment price_map[title] = price: hashes the key, so an
unhashable title raises TypeError as in Python. -/
def pmInsert (pm : PriceMap) (k : JValue) (v : Rat) : Except PyErr PriceMap :=
  if hashable k then .ok (insertKey pm k v) else .error .typeError

/-- Loop body accumulator of build_price_map (source lines 18-28): walks
the catalogue keeping the price map and the diagnostics emitted so far.
Each entry is read with .get (raising on non-dict entries); entries with
a missing title or price are skipped with a warning, entries whose price
fails the isinstance((int, float)) check or is negative are skipped with
a warning, and the rest are inserted, later insertions overwriting
earlier ones. -/
def buildGo (pm : PriceMap) (ds : List Diag) :
    List JValue → Except PyErr (PriceMap × List Diag)
  | [] => .ok (pm, ds)
  | entry :: rest =>
    match pyGet entry "title" .null, pyGet entry "price" .null with
    | .ok title, .ok price =>
      if title.isNull || price.isNull then
        buildGo pm (ds ++ [.warnInvalidEntry entry]) rest
      else
        match price.toNum? with
        | none => buildGo pm (ds ++ [.warnInvalidPrice title price]) rest
        | some p =>
          if p < 0 then
            buildGo pm (ds ++ [.warnInvalidPrice title price]) rest
          else
            match pmInsert pm title p with
            | .error e => .error e
            | .ok pm' => buildGo pm' ds rest
    | .error e, _ => .error e
    | _, .error e => .error e

/-- Embedding of build_price_map (source lines 16-29): builds the dict
mapping product title to price, reporting malformed entries as warnings. -/
def build_price_map (catalogue : List JValue) : Except PyErr (PriceMap × List Diag) :=
  buildGo [] [] catalogue

/-- Result record appended for each sale (source lines 59-63). -/
structure SaleResult where
  sale_id : JValue
  customer : JValue
  total : Rat
deriving Repr

/-- Embedding of the inner item loop body of compute_sales (source lines
43-56) for one item: reads Product (default None) and Quantity (default
0) with .get, returns the item's contribution to the sale total together
with the diagnostics it emits.  An unknown product is skipped with an
error diagnostic; a quantity failing the isinstance((int, float)) check
or not positive is skipped with a warning; otherwise the contribution is
price_map[product] * quantity. -/
def processItem (pm : PriceMap) (saleId : JValue) (item : JValue) :
    Except PyErr (Rat × List Diag) :=
  match pyGet item "Product" .null, pyGet item "Quantity" (.num 0) with
  | .ok product, .ok quantity =>
    match pmLookup pm product with
    | .error e => .error e
    | .ok none => .ok (0, [.errUnknownProduct product saleId])
    | .ok (some price) =>
      match quantity.toNum? with
      | none => .ok (0, [.warnInvalidQuantity product saleId quantity])
      | some q =>
        if q ≤ 0 then .ok (0, [.warnInvalidQuantity product saleId quantity])
        else .ok (price * q, [])
  | .error e, _ => .error e
  | _, .error e => .error e

/-- Accumulating loop over a sale's items: sale_total starts at 0.0 and
item contributions are added left to right, diagnostics concatenated in
emission order. -/
def itemsGo (pm : PriceMap) (saleId : JValue) (acc : Rat × List Diag) :
    List JValue → Except PyErr (Rat × List Diag)
  | [] => .ok acc
  | item :: rest =>
    match processItem pm saleId item with
    | .error e => .error e
    | .ok (c, ds) => itemsGo pm saleId (acc.1 + c, acc.2 ++ ds) rest

/-- Embedding of the outer loop body of compute_sales for one sale
(source lines 37-63): reads SALE_ID (default "UNKNOWN"), Customer
(default "UNKNOWN") and Items (default []) with .get, iterates the items
accumulating the sale total, and produces the sale's result record plus
the diagnostics emitted while processing it. -/
def processSale (pm : PriceMap) (sale : JValue) :
    Except PyErr (SaleResult × List Diag) :=
  match pyGet sale "SALE_ID" (.str "UNKNOWN"), pyGet sale "Customer" (.str "UNKNOWN"),
        pyGet sale "Items" (.arr []) with
  | .ok saleId, .ok customer, .ok itemsVal =>
    match pyIter itemsVal with
    | .error e => .error e
    | .ok items =>
      match itemsGo pm saleId (0, []) items with
      | .error e => .error e
      | .ok (total, ds) =>
        .ok ({ sale_id := saleId, customer := customer, total := total }, ds)
  | .error e, _, _ => .error e
  | _, .error e, _ => .error e
  | _, _, .error e => .error e

/-- Accumulating loop of compute_sales over the sales list: results are
appended in input order, grand_total starts at 0.0 and accumulates each
sale's total left to right, diagnostics concatenate in emission order. -/
def computeSalesGo (pm : PriceMap) (acc : List SaleResult × Rat × List Diag) :
    List JValue → Except PyErr (List SaleResult × Rat × List Diag)
  | [] => .ok acc
  | sale :: rest =>
    match processSale pm sale with
    | .error e => .error e
    | .ok (r, ds) =>
      computeSalesGo pm (acc.1 ++ [r], acc.2.1 + r.total, acc.2.2 ++ ds) rest

/-- Embedding of compute_sales (source lines 32-65): computes the result
record of every sale and the grand total, with the printed diagnostics
returned as a list. -/
def compute_sales (sales : List JValue) (pm : PriceMap) :
    Except PyErr (List SaleResult × Rat × List Diag) :=
  computeSalesGo pm ([], 0, []) sales

/-- Pipeline of the two computation stages as composed by main (source
lines 112-113): build the price map from the catalogue, then aggregate
the sales against it. -/
def run_pipeline (catalogue sales : List JValue) :
    Except PyErr (List SaleResult × Rat × List Diag) :=
  match build_price_map catalogue with
  | .error e => .error e
  | .ok (pm, ds1) =>
    match compute_sales sales pm with
    | .error e => .error e
    | .ok (res, gt, ds2) => .ok (res, gt, ds1 ++ ds2)

/-- Rendering of a number under the exact-rational idealisation: integral
values print like Python ints, other rationals fall back to the
numerator/denominator form (the binary-float repr is outside this
model). -/
def pyNumStr (q : Rat) : String :=
  if q.den = 1 then toString q.num
  else toString q.num ++ "/" ++ toString q.den

/-- Single-quote character used by Python repr of strings. -/
def quoteChar : String := String.singleton (Char.ofNat 39)

mutual

/-- Python repr of a JSON value, used for elements nested inside lists
and dicts in f-string interpolation: strings are quoted, None/True/False
print in Python style, containers recurse. -/
def pyRepr : JValue → String
  | .null => "None"
  | .bool b => if b then "True" else "False"
  | .num q => pyNumStr q
  | .str s => quoteChar ++ s ++ quoteChar
  | .arr xs => "[" ++ pyReprElems xs ++ "]"
  | .obj kvs => "\x7b" ++ pyReprKVs kvs ++ "\x7d"

/-- Comma-separated repr of list elements. -/
def pyReprElems : List JValue → String
  | [] => ""
  | [x] => pyRepr x
  | x :: rest => pyRepr x ++ ", " ++ pyReprElems rest

/-- Comma-separated repr of dict key-value pairs. -/
def pyReprKVs : List (String × JValue) → String
  | [] => ""
  | [kv] => quoteChar ++ kv.1 ++ quoteChar ++ ": " ++ pyRepr kv.2
  | kv :: rest =>
    quoteChar ++ kv.1 ++ quoteChar ++ ": " ++ pyRepr kv.2 ++ ", " ++ pyReprKVs rest

end

/-- Python str of a JSON value as interpolated by an f-string: a string
interpolates as itself (unquoted), everything else as its repr. -/
def pyStr : JValue → String
  | .str s => s
  | v => pyRepr v

/-- Round-half-to-even to an integer, the rounding Python's fixed-point
format specifiers apply (idealised to exact decimal rounding). -/
def roundHalfEven (q : Rat) : Int :=
  let f := q.floor
  let frac := q - (f : Rat)
  if frac < 1 / 2 then f
  else if 1 / 2 < frac then f + 1
  else if f % 2 = 0 then f else f + 1

/-- Grouping of the reversed digit list into blocks of three, used to
place thousands separators from the right. -/
def chunk3 : List Char → List (List Char)
  | [] => []
  | a :: b :: c :: rest => [a, b, c] :: chunk3 rest
  | l => [l]

/-- Insertion of comma thousands separators into a digit string, as the
comma flag of Python's format spec does for the integer part. -/
def addThousands (digits : String) : String :=
  String.mk (((chunk3 digits.toList.reverse).intersperse [',']).flatten.reverse)

/-- Decimal rendering of a natural number with exactly the requested
number of digits, padding with leading zeros; used for the fractional
part of a fixed-point rendering (the value is always below the matching
power of ten there). -/
def natDigitsPadded (n : Nat) : Nat → String
  | 0 => ""
  | p + 1 => natDigitsPadded (n / 10) p ++ String.singleton (Nat.digitChar (n % 10))

/-- Fixed-point rendering of a rational with the given number of decimal
places, optionally with comma thousands separators in the integer part:
the embedding of Python's format specs such as :,.2f and :.4f under the
exact-rational idealisation. -/
def fmtFixed (q : Rat) (prec : Nat) (thousands : Bool) : String :=
  let n := roundHalfEven (q * ((10 : Rat) ^ prec))
  let sign := if q < 0 then "-" else ""
  let a := n.natAbs
  let ip := a / 10 ^ prec
  let fp := a % 10 ^ prec
  let ipStr := if thousands then addThousands (toString ip) else toString ip
  sign ++ ipStr ++ "." ++ natDigitsPadded fp prec

/-- Money rendering used by the report: the :,.2f format spec (thousands
separators, exactly two decimal places). -/
def fmtComma2 (q : Rat) : String := fmtFixed q 2 true

/-- Elapsed-time rendering used by the report: the :.4f format spec. -/
def fmt4 (q : Rat) : String := fmtFixed q 4 false

/-- Banner line of 50 equals signs (source lines 71, 73, 82). -/
def eqBanner : String := String.mk (List.replicate 50 '=')

/-- Separator line of 50 dashes (source line 79). -/
def dashBanner : String := String.mk (List.replicate 50 '-')

/-- Title line literal of the report header (source line 72): eleven
spaces of indentation followed by the 20-character title. -/
def titleLine : String := "           SALES RESULTS REPORT"

/-- Lines appended for one result record (source lines 76-79). -/
def resultLines (r : SaleResult) : List String :=
  ["Sale ID  : " ++ pyStr r.sale_id,
   "Customer : " ++ pyStr r.customer,
   "Total    : $" ++ fmtComma2 r.total,
   dashBanner]

/-- Embedding of format_output (source lines 68-85): builds the report
lines by successive appends exactly as the source does, then joins them
with newlines. -/
def format_output (results : List SaleResult) (grand_total elapsed_time : Rat) :
    String :=
  let lines : List String := []
  let lines := lines ++ [eqBanner]
  let lines := lines ++ [titleLine]
  let lines := lines ++ [eqBanner]
  let lines := results.foldl
    (fun acc r =>
      (((acc ++ ["Sale ID  : " ++ pyStr r.sale_id])
        ++ ["Customer : " ++ pyStr r.customer])
        ++ ["Total    : $" ++ fmtComma2 r.total])
        ++ [dashBanner])
    lines
  let lines := lines ++ ["GRAND TOTAL: $" ++ fmtComma2 grand_total]
  let lines := lines ++ [eqBanner]
  let lines := lines ++ ["Execution time: " ++ fmt4 elapsed_time ++ " seconds"]
  String.intercalate "\n" lines

/-- Count of leading space characters of a line. -/
def leadingSpaces (s : String) : Nat := (s.toList.takeWhile (· == ' ')).length

/-- Characters of a line with leading and trailing spaces removed. -/
def trimSpaces (s : String) : List Char :=
  ((s.toList.dropWhile (· == ' ')).reverse.dropWhile (· == ' ')).reverse

/-- Centering of a line within a given width: the leading margin equals
half of the width left over after the space-trimmed content. -/
def isCenteredIn (width : Nat) (s : String) : Bool :=
  leadingSpaces s = (width - (trimSpaces s).length) / 2

/-- Title field of a catalogue entry as build_price_map reads it:
.get of the title key, None when absent (non-dict entries raise before
this value is used, so the default branch is arbitrary). -/
def entryTitle (e : JValue) : JValue := objGetD e "title" .null

/-- Price field of a catalogue entry as build_price_map reads it. -/
def entryPrice (e : JValue) : JValue := objGetD e "price" .null

/-- Numeric price of an entry when it passes the isinstance check. -/
def entryPriceVal (e : JValue) : Option Rat := (entryPrice e).toNum?

/-- Validity of a catalogue entry per the source's checks (lines 22-27):
title present and not None, price present, numeric in Python's sense,
and non-negative.  Exactly the entries build_price_map inserts. -/
def validEntry (e : JValue) : Bool :=
  !(entryTitle e).isNull &&
    match entryPriceVal e with
    | some p => decide (0 ≤ p)
    | none => false

/-- Price of the last valid catalogue entry whose title is pyEq-equal to
the given key, scanning in input order; none when no valid entry
matches. -/
def lastValidPrice (catalogue : List JValue) (k : JValue) : Option Rat :=
  match catalogue with
  | [] => none
  | e :: rest =>
    match lastValidPrice rest k with
    | some p => some p
    | none =>
      if validEntry e && pyEq (entryTitle e) k then entryPriceVal e else none

/-- Well-formed top-level input: the catalogue is a sequence of
key-value records and every sale is a key-value record whose Items
field, when present, is a sequence of key-value records. -/
def wellFormedInput (catalogue sales : List JValue) : Bool :=
  catalogue.all JValue.isObj &&
    sales.all fun s =>
      s.isObj &&
        match objGetD s "Items" (.arr []) with
        | .arr items => items.all JValue.isObj
        | _ => false

/-- Hashability of the titles build_price_map inserts: every catalogue
entry that passes validation has a title that is not a list or dict. -/
def hashableTitles (catalogue : List JValue) : Bool :=
  catalogue.all fun e => !validEntry e || hashable (entryTitle e)

/-- Hashability of the Product values compute_sales looks up: every sale
item's Product field (None when absent) is not a list or dict. -/
def hashableProducts (sales : List JValue) : Bool :=
  sales.all fun s =>
    match objGetD s "Items" (.arr []) with
    | .arr items => items.all fun it => hashable (objGetD it "Product" .null)
    | _ => true

/-! Lemmas about Python dict key equality. -/

theorem pyEq_symm (a b : JValue) : pyEq a b = pyEq b a := by
  unfold pyEq
  cases ha : a.toNum? <;> cases hb : b.toNum? <;>
    cases a <;> cases b <;>
      simp_all [JValue.toNum?, eq_comm]

theorem pyEq_trans {a b c : JValue} (hab : pyEq a b = true) (hbc : pyEq b c = true) :
    pyEq a c = true := by
  unfold pyEq at *
  cases ha : a.toNum? <;> cases hb : b.toNum? <;> cases hc : c.toNum? <;>
    cases a <;> cases b <;> cases c <;>
      simp_all [JValue.toNum?]

theorem pyEq_null_right {a : JValue} (h : pyEq a .null = true) : a = .null := by
  unfold pyEq at h
  cases a <;> simp_all [JValue.toNum?]

/-! Lemmas about price-map lookup and insertion. -/

theorem pmFind_congr {k k' : JValue} (h : pyEq k k' = true) (pm : PriceMap) :
    pmFind pm k = pmFind pm k' := by
  induction pm with
  | nil => rfl
  | cons kv rest ih =>
    unfold pmFind
    by_cases h1 : pyEq kv.1 k = true
    · rw [if_pos h1, if_pos (pyEq_trans h1 h)]
    · rw [if_neg h1, if_neg, ih]
      intro h2
      exact h1 (pyEq_trans h2 (by rw [pyEq_symm]; exact h))

theorem pyEq_false_right {a b c : JValue} (h1 : pyEq a b = true)
    (h2 : pyEq a c = false) : pyEq b c = false := by
  by_contra hc
  have hbc : pyEq b c = true := by simpa using hc
  rw [pyEq_trans h1 hbc] at h2
  exact Bool.noConfusion h2

theorem pmFind_cons (kv : JValue × Rat) (rest : PriceMap) (k : JValue) :
    pmFind (kv :: rest) k = if pyEq kv.1 k then some kv.2 else pmFind rest k := rfl

theorem pmFind_overwrite_eq {k k' : JValue} (h : pyEq k k' = true)
    (pm : PriceMap) (v : Rat) :
    pmFind (pm.map fun kv => if pyEq kv.1 k then (kv.1, v) else kv) k' =
      (pmFind pm k').map fun _ => v := by
  induction pm with
  | nil => rfl
  | cons kv rest ih =>
    cases h1 : pyEq kv.1 k with
    | true =>
      have h1' : pyEq kv.1 k' = true := pyEq_trans h1 h
      simp [pmFind_cons, h1, h1']
    | false =>
      have h1' : pyEq kv.1 k' = false := by
        by_contra hc
        have h1'' : pyEq kv.1 k' = true := by simpa using hc
        have := pyEq_trans h1'' (by rw [pyEq_symm]; exact h)
        rw [this] at h1
        exact Bool.noConfusion h1
      simp [pmFind_cons, h1, h1', ih]

theorem pmFind_overwrite_ne {k k' : JValue} (h : pyEq k k' = false)
    (pm : PriceMap) (v : Rat) :
    pmFind (pm.map fun kv => if pyEq kv.1 k then (kv.1, v) else kv) k' =
      pmFind pm k' := by
  induction pm with
  | nil => rfl
  | cons kv rest ih =>
    cases h1 : pyEq kv.1 k with
    | true =>
      have h1' : pyEq kv.1 k' = false := pyEq_false_right (by rw [pyEq_symm]; exact h1) h
      simp [pmFind_cons, h1, h1', ih]
    | false => simp [pmFind_cons, h1, ih]

theorem pmFind_append (l1 l2 : PriceMap) (k : JValue) :
    pmFind (l1 ++ l2) k =
      match pmFind l1 k with
      | some v => some v
      | none => pmFind l2 k := by
  induction l1 with
  | nil => rfl
  | cons kv rest ih =>
    cases h1 : pyEq kv.1 k with
    | true => simp [pmFind_cons, h1]
    | false => simp [pmFind_cons, h1, ih]

theorem pmFind_insertKey_eq {k k' : JValue} (h : pyEq k k' = true)
    (pm : PriceMap) (v : Rat) : pmFind (insertKey pm k v) k' = some v := by
  unfold insertKey
  cases hx : pmFind pm k with
  | some w =>
    rw [if_pos (by simp [hx]), pmFind_overwrite_eq h, ← pmFind_congr h, hx]
    rfl
  | none =>
    rw [if_neg (by simp [hx]), pmFind_append, ← pmFind_congr h, hx]
    simp [pmFind_cons, h]

theorem pmFind_insertKey_ne {k k' : JValue} (h : pyEq k k' = false)
    (pm : PriceMap) (v : Rat) : pmFind (insertKey pm k v) k' = pmFind pm k' := by
  unfold insertKey
  cases hx : pmFind pm k with
  | some w => rw [if_pos (by simp [hx]), pmFind_overwrite_ne h]
  | none =>
    rw [if_neg (by simp [hx]), pmFind_append]
    cases hy : pmFind pm k' with
    | some w => simp
    | none => simp [pmFind_cons, h, pmFind]

/-! Lemmas about build_price_map. -/

theorem isNull_eq {v : JValue} (h : v.isNull = true) : v = .null := by
  cases v <;> simp_all [JValue.isNull]

/-- Functional view of the price-map construction: fold the valid
entries of the catalogue into the map by dict insertion, in input
order. -/
def applyEntries (pm : PriceMap) : List JValue → PriceMap
  | [] => pm
  | e :: rest =>
    applyEntries
      (if validEntry e then insertKey pm (entryTitle e) ((entryPriceVal e).getD 0) else pm)
      rest

theorem buildGo_ok_map {cat : List JValue} {pm : PriceMap} {ds : List Diag}
    {out : PriceMap × List Diag} (h : buildGo pm ds cat = .ok out) :
    out.1 = applyEntries pm cat := by
  induction cat generalizing pm ds with
  | nil =>
    simp only [buildGo] at h
    cases h
    rfl
  | cons e rest ih =>
    cases e with
    | obj kvs =>
      simp only [buildGo, pyGet] at h
      split at h
      next hnull =>
        have hvalid : validEntry (.obj kvs) = false := by
          rcases Bool.or_eq_true_iff.mp hnull with h1 | h1
          · simp [validEntry, entryTitle, objGetD, h1]
          · have := isNull_eq h1
            simp [validEntry, entryPriceVal, entryPrice, objGetD, this, JValue.toNum?]
        simp only [applyEntries, hvalid, Bool.false_eq_true, if_false]
        exact ih h
      next hnull =>
        split at h
        next htn =>
          have hvalid : validEntry (.obj kvs) = false := by
            simp [validEntry, entryPriceVal, entryPrice, objGetD, htn]
          simp only [applyEntries, hvalid, Bool.false_eq_true, if_false]
          exact ih h
        next pr htn =>
          split at h
          next hlt =>
            have hvalid : validEntry (.obj kvs) = false := by
              simp [validEntry, entryPriceVal, entryPrice, objGetD, htn, not_le.mpr hlt]
            simp only [applyEntries, hvalid, Bool.false_eq_true, if_false]
            exact ih h
          next hlt =>
            split at h
            next err hins => exact absurd h (by simp)
            next pm' hins =>
              have hvalid : validEntry (.obj kvs) = true := by
                have hns : ((kvs.lookup "title").getD .null).isNull = false := by
                  cases hq : ((kvs.lookup "title").getD .null).isNull
                  · rfl
                  · rw [Bool.or_eq_true_iff] at hnull
                    exact absurd (Or.inl hq) hnull
                simp [validEntry, entryTitle, entryPriceVal, entryPrice, objGetD,
                  htn, hns, not_lt.mp hlt]
              have hpm' : pm' = insertKey pm ((kvs.lookup "title").getD .null) pr := by
                simp only [pmInsert] at hins
                split at hins
                · cases hins; rfl
                · exact absurd hins (by simp)
              have hgetd : (entryPriceVal (.obj kvs)).getD 0 = pr := by
                simp [entryPriceVal, entryPrice, objGetD, htn]
              simp only [applyEntries, hvalid, if_true,
                show entryTitle (.obj kvs) = (kvs.lookup "title").getD .null from rfl, hgetd]
              rw [← hpm']
              exact ih h
    | null => simp [buildGo, pyGet] at h
    | bool b => simp [buildGo, pyGet] at h
    | num q => simp [buildGo, pyGet] at h
    | str s => simp [buildGo, pyGet] at h
    | arr xs => simp [buildGo, pyGet] at h

theorem validEntry_priceVal {e : JValue} (h : validEntry e = true) :
    ∃ pr, entryPriceVal e = some pr ∧ 0 ≤ pr := by
  unfold validEntry at h
  cases hp : entryPriceVal e with
  | none => rw [hp] at h; simp at h
  | some pr =>
    rw [hp] at h
    refine ⟨pr, rfl, ?_⟩
    have := Bool.and_eq_true_iff.mp h
    exact of_decide_eq_true this.2

theorem pmFind_applyEntries (cat : List JValue) (pm : PriceMap) (k : JValue) :
    pmFind (applyEntries pm cat) k =
      match lastValidPrice cat k with
      | some p => some p
      | none => pmFind pm k := by
  induction cat generalizing pm with
  | nil => rfl
  | cons e rest ih =>
    simp only [applyEntries, lastValidPrice]
    cases hr : lastValidPrice rest k with
    | some p => rw [ih, hr]
    | none =>
      rw [ih, hr]
      cases hv : validEntry e with
      | false => simp [hv]
      | true =>
        obtain ⟨pr, hpr, _⟩ := validEntry_priceVal hv
        cases hpe : pyEq (entryTitle e) k with
        | true =>
          simp only [hv, if_true, Bool.true_and, hpe, hpr]
          rw [pmFind_insertKey_eq hpe]
          simp [hpr]
        | false =>
          simp only [hv, if_true, Bool.true_and, hpe]
          rw [pmFind_insertKey_ne hpe]
          simp

theorem lastValidPrice_isSome_iff (cat : List JValue) (k : JValue) :
    (lastValidPrice cat k).isSome = true ↔
      ∃ e ∈ cat, validEntry e = true ∧ pyEq (entryTitle e) k = true := by
  induction cat with
  | nil => simp [lastValidPrice]
  | cons e rest ih =>
    simp only [lastValidPrice]
    cases hr : lastValidPrice rest k with
    | some p =>
      simp only [Option.isSome_some, true_iff]
      obtain ⟨e', he', hv', hp'⟩ := ih.mp (by rw [hr]; rfl)
      exact ⟨e', List.mem_cons_of_mem _ he', hv', hp'⟩
    | none =>
      rw [hr] at ih
      simp only [Option.isSome_none, Bool.false_eq_true, false_iff, not_exists] at ih
      constructor
      · intro hs
        cases hc : (validEntry e && pyEq (entryTitle e) k) with
        | false => rw [hc] at hs; simp at hs
        | true =>
          obtain ⟨h1, h2⟩ := Bool.and_eq_true_iff.mp hc
          exact ⟨e, List.mem_cons_self e rest, h1, h2⟩
      · rintro ⟨e', he', hv', hp'⟩
        rcases List.mem_cons.mp he' with rfl | htail
        · obtain ⟨pr, hpr, _⟩ := validEntry_priceVal hv'
          simp [hv', hp', hpr]
        · have hne : e' ∈ rest → validEntry e' = true → pyEq (entryTitle e') k = false := by
            simpa using ih e'
          have := hne htail hv'
          rw [hp'] at this
          exact Bool.noConfusion this

theorem mem_insertKey {kv : JValue × Rat} {pm : PriceMap} {k : JValue} {v : Rat}
    (h : kv ∈ insertKey pm k v) : kv ∈ pm ∨ kv.2 = v := by
  unfold insertKey at h
  split at h
  · obtain ⟨kv', hmem, heq⟩ := List.mem_map.mp h
    by_cases hc : pyEq kv'.1 k = true
    · rw [if_pos hc] at heq
      right
      rw [← heq]
    · rw [if_neg hc] at heq
      left
      rw [← heq]
      exact hmem
  · rcases List.mem_append.mp h with hmem | hmem
    · exact Or.inl hmem
    · right
      rcases List.mem_singleton.mp hmem with rfl
      rfl

theorem applyEntries_nonneg {cat : List JValue} {pm : PriceMap}
    (hpm : ∀ kv ∈ pm, 0 ≤ kv.2) :
    ∀ kv ∈ applyEntries pm cat, 0 ≤ kv.2 := by
  induction cat generalizing pm with
  | nil => exact hpm
  | cons e rest ih =>
    simp only [applyEntries]
    cases hv : validEntry e with
    | false =>
      simp only [Bool.false_eq_true, if_false]
      exact ih hpm
    | true =>
      simp only [if_true]
      obtain ⟨pr, hpr, hnn⟩ := validEntry_priceVal hv
      refine ih ?_
      intro kv hkv
      rcases mem_insertKey hkv with hmem | hval
      · exact hpm kv hmem
      · rw [hval, hpr]
        simpa using hnn

theorem buildGo_total {cat : List JValue} (pm : PriceMap) (ds : List Diag)
    (hobj : ∀ e ∈ cat, e.isObj = true)
    (hhash : ∀ e ∈ cat, validEntry e = true → hashable (entryTitle e) = true) :
    ∃ out, buildGo pm ds cat = .ok out := by
  induction cat generalizing pm ds with
  | nil => exact ⟨(pm, ds), rfl⟩
  | cons e rest ih =>
    have hobjrest : ∀ e' ∈ rest, e'.isObj = true := fun e' he' =>
      hobj e' (List.mem_cons_of_mem _ he')
    have hhashrest : ∀ e' ∈ rest, validEntry e' = true → hashable (entryTitle e') = true :=
      fun e' he' => hhash e' (List.mem_cons_of_mem _ he')
    cases e with
    | obj kvs =>
      simp only [buildGo, pyGet]
      split
      next hnull => exact ih _ _ hobjrest hhashrest
      next hnull =>
        split
        next htn => exact ih _ _ hobjrest hhashrest
        next pr htn =>
          split
          next hlt => exact ih _ _ hobjrest hhashrest
          next hlt =>
            have hvalid : validEntry (.obj kvs) = true := by
              have hns : ((kvs.lookup "title").getD .null).isNull = false := by
                cases hq : ((kvs.lookup "title").getD .null).isNull
                · rfl
                · rw [Bool.or_eq_true_iff] at hnull
                  exact absurd (Or.inl hq) hnull
              simp [validEntry, entryTitle, entryPriceVal, entryPrice, objGetD,
                htn, hns, not_lt.mp hlt]
            have hh : hashable ((kvs.lookup "title").getD .null) = true := by
              have := hhash _ (List.mem_cons_self _ _) hvalid
              simpa [entryTitle, objGetD] using this
            rw [show pmInsert pm ((kvs.lookup "title").getD .null) pr =
              .ok (insertKey pm ((kvs.lookup "title").getD .null) pr) by
                simp [pmInsert, hh]]
            exact ih _ _ hobjrest hhashrest
    | null => exact absurd (hobj _ (List.mem_cons_self _ _)) (by simp [JValue.isObj])
    | bool b => exact absurd (hobj _ (List.mem_cons_self _ _)) (by simp [JValue.isObj])
    | num q => exact absurd (hobj _ (List.mem_cons_self _ _)) (by simp [JValue.isObj])
    | str s => exact absurd (hobj _ (List.mem_cons_self _ _)) (by simp [JValue.isObj])
    | arr xs => exact absurd (hobj _ (List.mem_cons_self _ _)) (by simp [JValue.isObj])

/-! Lemmas about compute_sales. -/

theorem itemsGo_ok {pm : PriceMap} {saleId : JValue} {items : List JValue}
    {acc out : Rat × List Diag} (h : itemsGo pm saleId acc items = .ok out) :
    ∃ cds : List (Rat × List Diag),
      cds.length = items.length ∧
      (∀ i (hi : i < items.length) (hi' : i < cds.length),
        processItem pm saleId (items.get ⟨i, hi⟩) = .ok (cds.get ⟨i, hi'⟩)) ∧
      out.1 = acc.1 + (cds.map Prod.fst).sum ∧
      out.2 = acc.2 ++ cds.flatMap Prod.snd := by
  induction items generalizing acc with
  | nil =>
    simp only [itemsGo] at h
    cases h
    exact ⟨[], rfl, fun i hi => absurd hi (Nat.not_lt_zero i), by simp, by simp⟩
  | cons it rest ih =>
    simp only [itemsGo] at h
    split at h
    next e hp => exact absurd h (by simp)
    next c ds hp =>
      obtain ⟨cds, hlen, hidx, hfst, hsnd⟩ := ih h
      refine ⟨(c, ds) :: cds, by simp [hlen], ?_, ?_, ?_⟩
      · intro i hi hi'
        cases i with
        | zero => exact hp
        | succ j =>
          exact hidx j (Nat.lt_of_succ_lt_succ hi) (Nat.lt_of_succ_lt_succ hi')
      · rw [hfst]
        simp [add_assoc]
      · rw [hsnd]
        simp

theorem itemsGo_fst_ignores_diags (pm : PriceMap) (saleId : JValue)
    (items : List JValue) (a : Rat) (d d' : List Diag) :
    Except.map Prod.fst (itemsGo pm saleId (a, d) items) =
      Except.map Prod.fst (itemsGo pm saleId (a, d') items) := by
  induction items generalizing a d d' with
  | nil => rfl
  | cons it rest ih =>
    simp only [itemsGo]
    cases hp : processItem pm saleId it with
    | error e => rfl
    | ok cd => exact ih _ _ _

theorem computeSalesGo_ok {pm : PriceMap} {sales : List JValue}
    {acc out : List SaleResult × Rat × List Diag}
    (h : computeSalesGo pm acc sales = .ok out) :
    ∃ rds : List (SaleResult × List Diag),
      rds.length = sales.length ∧
      (∀ i (hi : i < sales.length) (hi' : i < rds.length),
        processSale pm (sales.get ⟨i, hi⟩) = .ok (rds.get ⟨i, hi'⟩)) ∧
      out.1 = acc.1 ++ rds.map Prod.fst ∧
      out.2.1 = acc.2.1 + (rds.map fun rd => rd.1.total).sum ∧
      out.2.2 = acc.2.2 ++ rds.flatMap Prod.snd := by
  induction sales generalizing acc with
  | nil =>
    simp only [computeSalesGo] at h
    cases h
    exact ⟨[], rfl, fun i hi => absurd hi (Nat.not_lt_zero i), by simp, by simp, by simp⟩
  | cons sale rest ih =>
    simp only [computeSalesGo] at h
    split at h
    next e hp => exact absurd h (by simp)
    next r ds hp =>
      obtain ⟨rds, hlen, hidx, hres, hsum, hds⟩ := ih h
      refine ⟨(r, ds) :: rds, by simp [hlen], ?_, ?_, ?_, ?_⟩
      · intro i hi hi'
        cases i with
        | zero => exact hp
        | succ j =>
          exact hidx j (Nat.lt_of_succ_lt_succ hi) (Nat.lt_of_succ_lt_succ hi')
      · rw [hres]
        simp
      · rw [hsum]
        simp [add_assoc]
      · rw [hds]
        simp

theorem processItem_total (pm : PriceMap) (saleId : JValue) {item : JValue}
    (hobj : item.isObj = true)
    (hhash : hashable (objGetD item "Product" .null) = true) :
    ∃ out, processItem pm saleId item = .ok out := by
  cases item with
  | obj kvs =>
    simp only [objGetD] at hhash
    cases hf : pmFind pm ((kvs.lookup "Product").getD .null) with
    | none =>
      have : processItem pm saleId (.obj kvs) =
          .ok (0, [.errUnknownProduct ((kvs.lookup "Product").getD .null) saleId]) := by
        simp [processItem, pyGet, pmLookup, hhash, hf]
      exact ⟨_, this⟩
    | some price =>
      cases htq : ((kvs.lookup "Quantity").getD (JValue.num 0)).toNum? with
      | none =>
        have : processItem pm saleId (.obj kvs) =
            .ok (0, [.warnInvalidQuantity ((kvs.lookup "Product").getD .null) saleId
              ((kvs.lookup "Quantity").getD (JValue.num 0))]) := by
          simp [processItem, pyGet, pmLookup, hhash, hf, htq]
        exact ⟨_, this⟩
      | some q =>
        by_cases hq : q ≤ 0
        · have : processItem pm saleId (.obj kvs) =
              .ok (0, [.warnInvalidQuantity ((kvs.lookup "Product").getD .null) saleId
                ((kvs.lookup "Quantity").getD (JValue.num 0))]) := by
            simp [processItem, pyGet, pmLookup, hhash, hf, htq, hq]
          exact ⟨_, this⟩
        · have : processItem pm saleId (.obj kvs) = .ok (price * q, []) := by
            simp [processItem, pyGet, pmLookup, hhash, hf, htq, hq]
          exact ⟨_, this⟩
  | null => simp [JValue.isObj] at hobj
  | bool b => simp [JValue.isObj] at hobj
  | num q => simp [JValue.isObj] at hobj
  | str s => simp [JValue.isObj] at hobj
  | arr xs => simp [JValue.isObj] at hobj

theorem itemsGo_total (pm : PriceMap) (saleId : JValue) {items : List JValue}
    (acc : Rat × List Diag)
    (hit : ∀ it ∈ items, it.isObj = true ∧ hashable (objGetD it "Product" .null) = true) :
    ∃ out, itemsGo pm saleId acc items = .ok out := by
  induction items generalizing acc with
  | nil => exact ⟨acc, rfl⟩
  | cons it rest ih =>
    obtain ⟨hobj, hhash⟩ := hit it (List.mem_cons_self _ _)
    obtain ⟨⟨c, ds⟩, hok⟩ := processItem_total pm saleId hobj hhash
    simp only [itemsGo, hok]
    exact ih _ fun it' hit' => hit it' (List.mem_cons_of_mem _ hit')

theorem processSale_total (pm : PriceMap) {sale : JValue} (hobj : sale.isObj = true)
    {items : List JValue} (hiv : objGetD sale "Items" (.arr []) = .arr items)
    (hit : ∀ it ∈ items, it.isObj = true ∧ hashable (objGetD it "Product" .null) = true) :
    ∃ out, processSale pm sale = .ok out := by
  cases sale with
  | obj kvs =>
    simp only [objGetD] at hiv
    simp only [processSale, pyGet, hiv, pyIter]
    obtain ⟨⟨total, ds⟩, hok⟩ := itemsGo_total pm _ (0, []) hit
    rw [hok]
    exact ⟨_, rfl⟩
  | null => simp [JValue.isObj] at hobj
  | bool b => simp [JValue.isObj] at hobj
  | num q => simp [JValue.isObj] at hobj
  | str s => simp [JValue.isObj] at hobj
  | arr xs => simp [JValue.isObj] at hobj

theorem computeSalesGo_total (pm : PriceMap) {sales : List JValue}
    (acc : List SaleResult × Rat × List Diag)
    (hs : ∀ s ∈ sales, s.isObj = true ∧
      ∃ items : List JValue, objGetD s "Items" (.arr []) = .arr items ∧
        ∀ it ∈ items, it.isObj = true ∧ hashable (objGetD it "Product" .null) = true) :
    ∃ out, computeSalesGo pm acc sales = .ok out := by
  induction sales generalizing acc with
  | nil => exact ⟨acc, rfl⟩
  | cons sale rest ih =>
    obtain ⟨hobj, items, hiv, hit⟩ := hs sale (List.mem_cons_self _ _)
    obtain ⟨⟨r, ds⟩, hok⟩ := processSale_total pm hobj hiv hit
    simp only [computeSalesGo, hok]
    exact ih _ fun s' hs' => hs s' (List.mem_cons_of_mem _ hs')

/-! Lemmas about format_output. -/

theorem foldl_resultLines (results : List SaleResult) (init : List String) :
    results.foldl
      (fun acc r =>
        (((acc ++ ["Sale ID  : " ++ pyStr r.sale_id])
          ++ ["Customer : " ++ pyStr r.customer])
          ++ ["Total    : $" ++ fmtComma2 r.total])
          ++ [dashBanner])
      init = init ++ results.flatMap resultLines := by
  induction results generalizing init with
  | nil => simp
  | cons r rest ih =>
    simp only [List.foldl_cons, List.flatMap_cons, ih, resultLines]
    simp [List.append_assoc]

theorem format_output_eq (results : List SaleResult) (grand_total elapsed_time : Rat) :
    format_output results grand_total elapsed_time =
      String.intercalate "\n"
        ([eqBanner, titleLine, eqBanner]
          ++ results.flatMap resultLines
          ++ ["GRAND TOTAL: $" ++ fmtComma2 grand_total, eqBanner,
              "Execution time: " ++ fmt4 elapsed_time ++ " seconds"]) := by
  simp only [format_output, List.nil_append]
  rw [foldl_resultLines]
  simp [List.append_assoc]

theorem natDigitsPadded_length (n p : Nat) : (natDigitsPadded n p).length = p := by
  induction p generalizing n with
  | zero => rfl
  | succ q ih =>
    simp only [natDigitsPadded, String.length_append, ih]
    rfl

theorem pyEq_refl {a : JValue} (h : hashable a = true) : pyEq a a = true := by
  cases a <;> simp_all [pyEq, JValue.toNum?, hashable]

theorem buildGo_ok_hashable {cat : List JValue} {pm : PriceMap} {ds : List Diag}
    {out : PriceMap × List Diag} (h : buildGo pm ds cat = .ok out) :
    ∀ e ∈ cat, validEntry e = true → hashable (entryTitle e) = true := by
  induction cat generalizing pm ds with
  | nil =>
    intro e he
    cases he
  | cons e0 rest ih =>
    intro e he hv
    cases e0 with
    | obj kvs =>
      simp only [buildGo, pyGet] at h
      split at h
      next hnull =>
        rcases List.mem_cons.mp he with rfl | htail
        · rcases Bool.or_eq_true_iff.mp hnull with h1 | h1
          · simp [validEntry, entryTitle, objGetD, h1] at hv
          · have := isNull_eq h1
            simp [validEntry, entryPriceVal, entryPrice, objGetD, this,
              JValue.toNum?] at hv
        · exact ih h e htail hv
      next hnull =>
        split at h
        next htn =>
          rcases List.mem_cons.mp he with rfl | htail
          · simp [validEntry, entryPriceVal, entryPrice, objGetD, htn] at hv
          · exact ih h e htail hv
        next pr htn =>
          split at h
          next hlt =>
            rcases List.mem_cons.mp he with rfl | htail
            · simp [validEntry, entryPriceVal, entryPrice, objGetD, htn,
                not_le.mpr hlt] at hv
            · exact ih h e htail hv
          next hlt =>
            split at h
            next err hins => exact absurd h (by simp)
            next pm' hins =>
              rcases List.mem_cons.mp he with rfl | htail
              · have hh : hashable ((kvs.lookup "title").getD .null) = true := by
                  by_contra hc
                  have hc' : hashable ((kvs.lookup "title").getD .null) = false := by
                    simpa using hc
                  simp [pmInsert, hc'] at hins
                simpa [entryTitle, objGetD] using hh
              · exact ih h e htail hv
    | null => simp [buildGo, pyGet] at h
    | bool b => simp [buildGo, pyGet] at h
    | num q => simp [buildGo, pyGet] at h
    | str s => simp [buildGo, pyGet] at h
    | arr xs => simp [buildGo, pyGet] at h

/-! Claim theorems. -/

/-- C3 counterexample: with two valid catalogue entries sharing title A
(prices 1 and 2), the first entry is valid yet the price map does not
map its title to its own price: the claim that every valid entry is
mapped to exactly its price fails. -/
theorem C3_counterexample_duplicate_title :
    validEntry (.obj [("title", .str "A"), ("price", .num 1)]) = true ∧
    build_price_map
        [.obj [("title", .str "A"), ("price", .num 1)],
         .obj [("title", .str "A"), ("price", .num 2)]] =
      .ok ([(.str "A", 2)], []) ∧
    pmFind [(.str "A", (2 : Rat))]
        (entryTitle (.obj [("title", .str "A"), ("price", .num 1)])) ≠
      entryPriceVal (.obj [("title", .str "A"), ("price", .num 1)]) := by
  refine ⟨rfl, rfl, ?_⟩
  decide

/-- C3 amended: when build_price_map succeeds, the price map's keys are
exactly the titles of valid catalogue entries, every stored price is
non-negative, an empty catalogue yields an empty map, and every key
(hence every valid entry's title) is mapped to the price of the last
valid entry bearing that title in input order. -/
theorem C3_priceMap_amended :
    (∀ (cat : List JValue) (pm : PriceMap) (ds : List Diag),
      build_price_map cat = .ok (pm, ds) →
        (∀ k, (pmFind pm k).isSome = true ↔
          ∃ e ∈ cat, validEntry e = true ∧ pyEq (entryTitle e) k = true) ∧
        (∀ kv ∈ pm, 0 ≤ kv.2) ∧
        (∀ k, pmFind pm k = lastValidPrice cat k) ∧
        (∀ e ∈ cat, validEntry e = true → (pmFind pm (entryTitle e)).isSome = true)) ∧
    build_price_map [] = .ok ([], []) := by
  refine ⟨?_, rfl⟩
  intro cat pm ds hbuild
  have hpm : pm = applyEntries [] cat := by simpa using buildGo_ok_map hbuild
  have hfind : ∀ k, pmFind pm k = lastValidPrice cat k := by
    intro k
    rw [hpm, pmFind_applyEntries]
    cases hl : lastValidPrice cat k <;> rfl
  have hkeys : ∀ k, (pmFind pm k).isSome = true ↔
      ∃ e ∈ cat, validEntry e = true ∧ pyEq (entryTitle e) k = true := by
    intro k
    rw [hfind k]
    exact lastValidPrice_isSome_iff cat k
  refine ⟨hkeys, ?_, hfind, ?_⟩
  · rw [hpm]
    refine applyEntries_nonneg ?_
    intro kv hkv
    cases hkv
  · intro e he hv
    refine (hkeys _).mpr ⟨e, he, hv, ?_⟩
    exact pyEq_refl (buildGo_ok_hashable hbuild e he hv)

/-- C3 amended witness: the Apple catalogue's map has Apple among its
keys. -/
theorem C3_priceMap_amended_witness :
    (pmFind [(JValue.str "Apple", (2 : Rat))]
      (entryTitle (.obj [("title", .str "Apple"), ("price", .num 2)]))).isSome = true :=
  (C3_priceMap_amended.1 [.obj [("title", .str "Apple"), ("price", .num 2)]]
    [(.str "Apple", (2 : Rat))] [] rfl).2.2.2
    (.obj [("title", .str "Apple"), ("price", .num 2)])
    (List.mem_singleton.mpr rfl) rfl

/-- C6: when the catalogue holds two or more valid entries with the same
title (up to dict key equality), the price map maps that title to the
price of the last valid occurrence in input order. -/
theorem C6_duplicate_title_last_wins (cat : List JValue) (pm : PriceMap) (ds : List Diag)
    (t : JValue) (i j : Nat) (hi : i < cat.length) (hj : j < cat.length)
    (hbuild : build_price_map cat = .ok (pm, ds)) (hij : i ≠ j)
    (hvi : validEntry (cat.get ⟨i, hi⟩) = true)
    (hvj : validEntry (cat.get ⟨j, hj⟩) = true)
    (hti : pyEq (entryTitle (cat.get ⟨i, hi⟩)) t = true)
    (htj : pyEq (entryTitle (cat.get ⟨j, hj⟩)) t = true) :
    pmFind pm t = lastValidPrice cat t ∧ (lastValidPrice cat t).isSome = true := by
  have hpm : pm = applyEntries [] cat := by simpa using buildGo_ok_map hbuild
  constructor
  · rw [hpm, pmFind_applyEntries]
    cases hl : lastValidPrice cat t <;> rfl
  · exact (lastValidPrice_isSome_iff cat t).mpr
      ⟨cat.get ⟨i, hi⟩, List.get_mem cat i hi, hvi, hti⟩

/-- C6 witness: duplicate title A with prices 1 then 2 resolves to the
last valid price. -/
theorem C6_duplicate_title_last_wins_witness :
    pmFind [(JValue.str "A", (2 : Rat))] (.str "A") =
      lastValidPrice
        [.obj [("title", .str "A"), ("price", .num 1)],
         .obj [("title", .str "A"), ("price", .num 2)]] (.str "A") ∧
    (lastValidPrice
        [.obj [("title", .str "A"), ("price", .num 1)],
         .obj [("title", .str "A"), ("price", .num 2)]] (.str "A")).isSome = true :=
  C6_duplicate_title_last_wins
    [.obj [("title", .str "A"), ("price", .num 1)],
     .obj [("title", .str "A"), ("price", .num 2)]]
    [(.str "A", (2 : Rat))] [] (.str "A") 0 1
    (by norm_num) (by norm_num) rfl (by norm_num) rfl rfl rfl rfl

/-- C1: for every price map and every sequence of sale records, when the
sales aggregator compute_sales returns a result, the grand total it
returns equals the sum of the totals of all SaleResult entries it
returns, under exact (no-rounding) accumulation. -/
theorem C1_grandTotal_eq_sum (sales : List JValue) (pm : PriceMap)
    (res : List SaleResult) (gt : Rat) (ds : List Diag)
    (h : compute_sales sales pm = .ok (res, gt, ds)) :
    gt = (res.map SaleResult.total).sum := by
  obtain ⟨rds, hlen, hidx, hres, hsum, hds⟩ := computeSalesGo_ok h
  simp only [List.nil_append] at hres
  simp only [zero_add] at hsum
  rw [hsum, hres, List.map_map]
  rfl

/-- C1 witness: the spec's Apple scenario, grand total 7.5 equals the
sum of the single result's total. -/
theorem C1_grandTotal_eq_sum_witness :
    ((15 : Rat)/2) =
      (([{ sale_id := .str "S1", customer := .str "Bob", total := (15 : Rat)/2 }] :
        List SaleResult).map SaleResult.total).sum :=
  C1_grandTotal_eq_sum
    [.obj [("SALE_ID", .str "S1"), ("Customer", .str "Bob"),
      ("Items", .arr [.obj [("Product", .str "Apple"), ("Quantity", .num 3)]])]]
    [(.str "Apple", (5 : Rat)/2)]
    [{ sale_id := .str "S1", customer := .str "Bob", total := (15 : Rat)/2 }]
    ((15 : Rat)/2) []
    (by
      simp [compute_sales, computeSalesGo, processSale, processItem, itemsGo, pyGet,
        pyIter, pmLookup, pmFind, pyEq, hashable, JValue.toNum?, JValue.isNull,
        List.lookup, Option.getD]
      norm_num)

/-- C2: for every price map and every sequence of sale records, when
compute_sales returns a result it returns exactly one SaleResult per
input SaleRecord, in input order: the result list has the same length as
the sales list and its i-th element is the result of processing the i-th
sale (whatever items were skipped inside it, including all of them). -/
theorem C2_one_result_per_sale (sales : List JValue) (pm : PriceMap)
    (res : List SaleResult) (gt : Rat) (ds : List Diag)
    (h : compute_sales sales pm = .ok (res, gt, ds)) :
    res.length = sales.length ∧
      ∀ i (hi : i < sales.length) (hi' : i < res.length),
        ∃ ds', processSale pm (sales.get ⟨i, hi⟩) = .ok (res.get ⟨i, hi'⟩, ds') := by
  obtain ⟨rds, hlen, hidx, hres, hsum, hds⟩ := computeSalesGo_ok h
  simp only [List.nil_append] at hres
  have hreslen : res.length = sales.length := by rw [hres, List.length_map, hlen]
  refine ⟨hreslen, ?_⟩
  intro i hi hi'
  have hi2 : i < rds.length := by rw [hlen]; exact hi
  refine ⟨(rds.get ⟨i, hi2⟩).2, ?_⟩
  rw [hidx i hi hi2]
  congr 1
  have : res.get ⟨i, hi'⟩ = (rds.get ⟨i, hi2⟩).1 := by
    simp [hres, List.get_eq_getElem]
  rw [this]

/-- C2 witness: a two-sale input (the second sale's only item is
skipped) yields exactly two results, the second being the result of the
second sale. -/
theorem C2_one_result_per_sale_witness :
    ([{ sale_id := .str "S1", customer := .str "Bob", total := (15 : Rat)/2 },
      { sale_id := .str "S2", customer := .str "Eve", total := 0 }] :
        List SaleResult).length =
      ([.obj [("SALE_ID", .str "S1"), ("Customer", .str "Bob"),
          ("Items", .arr [.obj [("Product", .str "Apple"), ("Quantity", .num 3)]])],
        .obj [("SALE_ID", .str "S2"), ("Customer", .str "Eve"),
          ("Items", .arr [.obj [("Product", .str "Pear"), ("Quantity", .num 1)]])]] :
        List JValue).length :=
  (C2_one_result_per_sale
    [.obj [("SALE_ID", .str "S1"), ("Customer", .str "Bob"),
        ("Items", .arr [.obj [("Product", .str "Apple"), ("Quantity", .num 3)]])],
      .obj [("SALE_ID", .str "S2"), ("Customer", .str "Eve"),
        ("Items", .arr [.obj [("Product", .str "Pear"), ("Quantity", .num 1)]])]]
    [(.str "Apple", (5 : Rat)/2)]
    [{ sale_id := .str "S1", customer := .str "Bob", total := (15 : Rat)/2 },
      { sale_id := .str "S2", customer := .str "Eve", total := 0 }]
    ((15 : Rat)/2)
    [.errUnknownProduct (.str "Pear") (.str "S2")]
    (by
      simp [compute_sales, computeSalesGo, processSale, processItem, itemsGo, pyGet,
        pyIter, pmLookup, pmFind, pyEq, hashable, JValue.toNum?, JValue.isNull,
        List.lookup, Option.getD]
      norm_num)).1

/-- C4: an item whose product is not a key of the price map is skipped:
processing it yields contribution 0 together with exactly one
error-level diagnostic naming the product and the sale id, and removing
such an item from a sale's item list leaves every sale total
unchanged (other valid items still contribute). -/
theorem C4_unknown_product_skipped (pm : PriceMap) (saleId product item : JValue)
    (hprod : pyGet item "Product" .null = .ok product)
    (hunknown : pmLookup pm product = .ok none) :
    processItem pm saleId item = .ok (0, [.errUnknownProduct product saleId]) ∧
      (Diag.errUnknownProduct product saleId).level = .error ∧
      ∀ (rest : List JValue) (acc : Rat × List Diag),
        Except.map Prod.fst (itemsGo pm saleId acc (item :: rest)) =
          Except.map Prod.fst (itemsGo pm saleId acc rest) := by
  cases item with
  | obj kvs =>
    simp only [pyGet] at hprod
    cases hprod
    have hitem : processItem pm saleId (.obj kvs) =
        .ok (0, [.errUnknownProduct ((kvs.lookup "Product").getD .null) saleId]) := by
      simp [processItem, pyGet, hunknown]
    refine ⟨hitem, rfl, ?_⟩
    intro rest acc
    simp only [itemsGo, hitem, add_zero]
    have := itemsGo_fst_ignores_diags pm saleId rest acc.1
      (acc.2 ++ [.errUnknownProduct ((kvs.lookup "Product").getD .null) saleId]) acc.2
    rw [this]
  | null => simp [pyGet] at hprod
  | bool b => simp [pyGet] at hprod
  | num q => simp [pyGet] at hprod
  | str s => simp [pyGet] at hprod
  | arr xs => simp [pyGet] at hprod

/-- C4 witness: a Pear item against an Apple-only price map is skipped
with the error diagnostic. -/
theorem C4_unknown_product_skipped_witness :
    processItem [(.str "Apple", (5 : Rat)/2)] (.str "S1")
        (.obj [("Product", .str "Pear"), ("Quantity", .num 1)]) =
      .ok (0, [.errUnknownProduct (.str "Pear") (.str "S1")]) :=
  (C4_unknown_product_skipped [(.str "Apple", (5 : Rat)/2)] (.str "S1")
    (.str "Pear") (.obj [("Product", .str "Pear"), ("Quantity", .num 1)])
    rfl rfl).1

/-- C5: for an item whose product is in the price map, a quantity that
is absent (defaulting to 0), non-numeric, or not positive excludes the
item with a warning diagnostic while the item still processes without
failure (so the enclosing sale still produces its SaleResult), and a
numeric quantity q > 0 contributes exactly price * q. -/
theorem C5_quantity_validation (pm : PriceMap) (saleId product quantity item : JValue)
    (price : Rat)
    (hprod : pyGet item "Product" .null = .ok product)
    (hq : pyGet item "Quantity" (.num 0) = .ok quantity)
    (hfound : pmLookup pm product = .ok (some price)) :
    (quantity.toNum? = none →
      processItem pm saleId item =
        .ok (0, [.warnInvalidQuantity product saleId quantity])) ∧
    (∀ q, quantity.toNum? = some q → q ≤ 0 →
      processItem pm saleId item =
        .ok (0, [.warnInvalidQuantity product saleId quantity])) ∧
    (∀ q, quantity.toNum? = some q → 0 < q →
      processItem pm saleId item = .ok (price * q, [])) ∧
    (Diag.warnInvalidQuantity product saleId quantity).level = .warning ∧
    (∃ out, processItem pm saleId item = .ok out) := by
  cases item with
  | obj kvs =>
    simp only [pyGet] at hprod hq
    cases hprod
    cases hq
    refine ⟨?_, ?_, ?_, rfl, ?_⟩
    · intro htq
      simp [processItem, pyGet, hfound, htq]
    · intro q htq hle
      simp [processItem, pyGet, hfound, htq, hle]
    · intro q htq hpos
      simp [processItem, pyGet, hfound, htq, not_le.mpr hpos]
    · cases htq : ((kvs.lookup "Quantity").getD (JValue.num 0)).toNum? with
      | none =>
        refine ⟨(0, [.warnInvalidQuantity ((kvs.lookup "Product").getD .null) saleId
          ((kvs.lookup "Quantity").getD (JValue.num 0))]), ?_⟩
        simp [processItem, pyGet, hfound, htq]
      | some q =>
        by_cases hle : q ≤ 0
        · refine ⟨(0, [.warnInvalidQuantity ((kvs.lookup "Product").getD .null) saleId
            ((kvs.lookup "Quantity").getD (JValue.num 0))]), ?_⟩
          simp [processItem, pyGet, hfound, htq, hle]
        · refine ⟨(price * q, []), ?_⟩
          simp [processItem, pyGet, hfound, htq, hle]
  | null => simp [pyGet] at hprod
  | bool b => simp [pyGet] at hprod
  | num q => simp [pyGet] at hprod
  | str s => simp [pyGet] at hprod
  | arr xs => simp [pyGet] at hprod

/-- C5 witness: quantity 3 of a 2.5-priced product contributes 7.5, and
quantity 0 is excluded with the warning diagnostic. -/
theorem C5_quantity_validation_witness :
    processItem [(.str "Apple", (5 : Rat)/2)] (.str "S1")
        (.obj [("Product", .str "Apple"), ("Quantity", .num 3)]) =
      .ok ((5 : Rat)/2 * 3, []) ∧
    processItem [(.str "Apple", (5 : Rat)/2)] (.str "S1")
        (.obj [("Product", .str "Apple"), ("Quantity", .num 0)]) =
      .ok (0, [.warnInvalidQuantity (.str "Apple") (.str "S1") (.num 0)]) :=
  ⟨(C5_quantity_validation [(.str "Apple", (5 : Rat)/2)] (.str "S1") (.str "Apple")
      (.num 3) (.obj [("Product", .str "Apple"), ("Quantity", .num 3)]) ((5 : Rat)/2)
      rfl rfl rfl).2.2.1 3 rfl (by norm_num),
    (C5_quantity_validation [(.str "Apple", (5 : Rat)/2)] (.str "S1") (.str "Apple")
      (.num 0) (.obj [("Product", .str "Apple"), ("Quantity", .num 0)]) ((5 : Rat)/2)
      rfl rfl rfl).2.1 0 rfl le_rfl⟩

/-- C10: an item record lacking a Product field entirely reads as
product None, which is never a key of a price map built by
build_price_map (valid titles are never None), so the item is skipped
through the error-level unknown-product path with no exception and a
zero contribution. -/
theorem C10_missing_product_field (cat : List JValue) (pm : PriceMap) (ds : List Diag)
    (saleId : JValue) (kvs : List (String × JValue))
    (hbuild : build_price_map cat = .ok (pm, ds))
    (hmissing : kvs.lookup "Product" = none) :
    processItem pm saleId (.obj kvs) =
      .ok (0, [.errUnknownProduct .null saleId]) ∧
    (Diag.errUnknownProduct .null saleId).level = .error := by
  have hpm : pm = applyEntries [] cat := by
    have := buildGo_ok_map hbuild
    simpa using this
  have hnull_none : lastValidPrice cat .null = none := by
    cases hl : lastValidPrice cat .null with
    | none => rfl
    | some p =>
      obtain ⟨e, he, hv, hp⟩ :=
        (lastValidPrice_isSome_iff cat .null).mp (by rw [hl]; rfl)
      have hte := pyEq_null_right hp
      unfold validEntry at hv
      rw [hte] at hv
      simp [JValue.isNull] at hv
  have hfind : pmFind pm .null = none := by
    rw [hpm, pmFind_applyEntries, hnull_none]
    rfl
  refine ⟨?_, rfl⟩
  simp [processItem, pyGet, pmLookup, hashable, hmissing, hfind]

/-- C10 witness: an item with only a Quantity field, against the
Apple catalogue's price map, is skipped with the error diagnostic. -/
theorem C10_missing_product_field_witness :
    processItem [(.str "Apple", (2 : Rat))] (.str "S1")
        (.obj [("Quantity", .num 1)]) =
      .ok (0, [.errUnknownProduct .null (.str "S1")]) :=
  (C10_missing_product_field [.obj [("title", .str "Apple"), ("price", .num 2)]]
    [(.str "Apple", (2 : Rat))] [] (.str "S1") [("Quantity", .num 1)] rfl rfl).1

/-- C7 counterexample: a well-formed top-level input (a sequence of
key-value catalogue records and sale records) on which the pipeline
raises: a catalogue entry whose title is a list passes validation and
then crashes dict insertion with TypeError. -/
theorem C7_counterexample_unhashable_title :
    wellFormedInput [.obj [("title", .arr []), ("price", .num 1)]] [] = true ∧
    run_pipeline [.obj [("title", .arr []), ("price", .num 1)]] [] =
      .error .typeError :=
  ⟨rfl, rfl⟩

/-- C7 amended: for well-formed top-level input whose validated
catalogue titles and sale-item Product values are hashable (not lists or
dicts), the pipeline raises no exception: both stages return, every
per-record failure having been surfaced only as a diagnostic, and the
result set is full (one SaleResult per sale record). -/
theorem C7_pipeline_total_amended (cat sales : List JValue)
    (hwf : wellFormedInput cat sales = true)
    (hht : hashableTitles cat = true)
    (hhp : hashableProducts sales = true) :
    ∃ pm ds1 res gt ds2,
      build_price_map cat = .ok (pm, ds1) ∧
      compute_sales sales pm = .ok (res, gt, ds2) ∧
      run_pipeline cat sales = .ok (res, gt, ds1 ++ ds2) ∧
      res.length = sales.length := by
  simp only [wellFormedInput, Bool.and_eq_true, List.all_eq_true] at hwf
  obtain ⟨hcat, hsales⟩ := hwf
  simp only [hashableTitles, List.all_eq_true] at hht
  simp only [hashableProducts, List.all_eq_true] at hhp
  have hhash : ∀ e ∈ cat, validEntry e = true → hashable (entryTitle e) = true := by
    intro e he hv
    have := hht e he
    rw [hv] at this
    simpa [entryTitle] using this
  obtain ⟨⟨pm, ds1⟩, hb⟩ := buildGo_total ([] : PriceMap) ([] : List Diag) hcat hhash
  have hsalesCond : ∀ s ∈ sales, s.isObj = true ∧
      ∃ items : List JValue, objGetD s "Items" (.arr []) = .arr items ∧
        ∀ it ∈ items, it.isObj = true ∧ hashable (objGetD it "Product" .null) = true := by
    intro s hs
    obtain ⟨hobj, hmatch⟩ := hsales s hs
    have h2 := hhp s hs
    cases hov : objGetD s "Items" (.arr []) with
    | arr items =>
      simp only [hov] at hmatch h2
      refine ⟨hobj, items, rfl, ?_⟩
      intro it hit
      exact ⟨List.all_eq_true.mp hmatch it hit, List.all_eq_true.mp h2 it hit⟩
    | null => simp only [hov] at hmatch; simp at hmatch
    | bool b => simp only [hov] at hmatch; simp at hmatch
    | num q => simp only [hov] at hmatch; simp at hmatch
    | str t => simp only [hov] at hmatch; simp at hmatch
    | obj kvs => simp only [hov] at hmatch; simp at hmatch
  obtain ⟨⟨res, gt, ds2⟩, hc⟩ :=
    computeSalesGo_total pm (([], 0, []) : List SaleResult × Rat × List Diag) hsalesCond
  have hb' : build_price_map cat = .ok (pm, ds1) := hb
  have hc' : compute_sales sales pm = .ok (res, gt, ds2) := hc
  refine ⟨pm, ds1, res, gt, ds2, hb', hc', ?_, ?_⟩
  · simp [run_pipeline, hb', hc']
  · obtain ⟨rds, hlen, _, hres, _, _⟩ := computeSalesGo_ok hc'
    simp only [List.nil_append] at hres
    rw [hres, List.length_map, hlen]

/-- C7 amended witness: the Apple catalogue with an empty sales list
runs the whole pipeline without an exception. -/
theorem C7_pipeline_total_amended_witness :
    ∃ pm ds1 res gt ds2,
      build_price_map [.obj [("title", .str "Apple"), ("price", .num 2)]] =
        .ok (pm, ds1) ∧
      compute_sales [] pm = .ok (res, gt, ds2) ∧
      run_pipeline [.obj [("title", .str "Apple"), ("price", .num 2)]] [] =
        .ok (res, gt, ds1 ++ ds2) ∧
      res.length = ([] : List JValue).length :=
  C7_pipeline_total_amended [.obj [("title", .str "Apple"), ("price", .num 2)]] []
    rfl rfl rfl

theorem fmtFixed_decimals (q : Rat) (prec : Nat) (th : Bool) :
    ∃ a b : String, fmtFixed q prec th = a ++ ("." ++ b) ∧ b.length = prec := by
  refine ⟨(if q < 0 then "-" else "") ++
      (if th then
        addThousands (toString ((roundHalfEven (q * ((10 : Rat) ^ prec))).natAbs / 10 ^ prec))
      else toString ((roundHalfEven (q * ((10 : Rat) ^ prec))).natAbs / 10 ^ prec)),
    natDigitsPadded ((roundHalfEven (q * ((10 : Rat) ^ prec))).natAbs % 10 ^ prec) prec,
    ?_, natDigitsPadded_length _ _⟩
  rw [fmtFixed, String.append_assoc]

/-- C8: format_output returns exactly the lines the spec describes,
joined by newline with no trailing newline: a 50-character equals
banner, the title line, another banner; per result the Sale ID,
Customer, dollar Total (thousands separators, exactly two decimal
places) and a 50-character dash separator; then the dollar GRAND TOTAL
formatted the same way, a closing banner, and the execution time with
exactly four decimal places. -/
theorem C8_format_output_layout (results : List SaleResult) (gt t : Rat) :
    format_output results gt t =
      String.intercalate "\n"
        ([eqBanner, titleLine, eqBanner]
          ++ results.flatMap (fun r =>
              ["Sale ID  : " ++ pyStr r.sale_id,
               "Customer : " ++ pyStr r.customer,
               "Total    : $" ++ fmtComma2 r.total,
               dashBanner])
          ++ ["GRAND TOTAL: $" ++ fmtComma2 gt, eqBanner,
              "Execution time: " ++ fmt4 t ++ " seconds"]) ∧
    eqBanner.length = 50 ∧ dashBanner.length = 50 ∧
    eqBanner.toList.all (· == '=') = true ∧
    dashBanner.toList.all (· == '-') = true ∧
    (∀ q : Rat, ∃ a b : String, fmtComma2 q = a ++ ("." ++ b) ∧ b.length = 2) ∧
    (∀ q : Rat, ∃ a b : String, fmt4 q = a ++ ("." ++ b) ∧ b.length = 4) := by
  refine ⟨format_output_eq results gt t, rfl, rfl, rfl, rfl, ?_, ?_⟩
  · intro q
    exact fmtFixed_decimals q 2 true
  · intro q
    exact fmtFixed_decimals q 4 false

/-- C9 counterexample: on the concrete input of no results, zero grand
total and zero elapsed time, the line format_output places between the
two opening banners is the fixed title line, and that line is not
centered in the 50-character banner width (11 leading spaces instead of
the 15 exact centering requires). -/
theorem C9_counterexample_title_not_centered :
    format_output [] 0 0 =
      String.intercalate "\n"
        [eqBanner, titleLine, eqBanner, "GRAND TOTAL: $" ++ fmtComma2 0, eqBanner,
         "Execution time: " ++ fmt4 0 ++ " seconds"] ∧
    isCenteredIn 50 titleLine = false :=
  ⟨format_output_eq [] 0 0, rfl⟩

/-- C9 amended: the title line between the two opening banners is the
fixed literal with 11 leading spaces and a 20-character trimmed title;
it is not exactly centered in the 50-character width, which would
require 15 leading spaces. -/
theorem C9_title_line_amended (results : List SaleResult) (gt t : Rat) :
    (∃ restLines : List String,
      format_output results gt t =
        String.intercalate "\n" (eqBanner :: titleLine :: eqBanner :: restLines)) ∧
    leadingSpaces titleLine = 11 ∧
    (trimSpaces titleLine).length = 20 ∧
    (50 - (trimSpaces titleLine).length) / 2 = 15 ∧
    isCenteredIn 50 titleLine = false := by
  refine ⟨⟨results.flatMap resultLines
    ++ ["GRAND TOTAL: $" ++ fmtComma2 gt, eqBanner,
        "Execution time: " ++ fmt4 t ++ " seconds"], ?_⟩, rfl, rfl, rfl, rfl⟩
  exact format_output_eq results gt t

end ComputeSales
